import Mathlib

/-!
Verification of the Monkey front end (token model, lexer, AST, parser).

The lexer is embedded from `lexer.go`: the input byte buffer is a `List Char`
(the source is ASCII; Go indexes bytes, each modeled as one `Char`), the Go
NUL sentinel byte is `Char.ofNat 0`, and the three scan fields `position`,
`readPosition`, `ch` are carried in a `Lexer` structure.  The two greedy scan
loops and the whitespace loop are encoded with an explicit gas argument
`loopAux`; the gas `lexMeasure l` is proved sufficient (`loopAux_gas_irrel`,
`loop_unfold`), so every wrapper satisfies exactly the Go loop's unfolding
equation.

The token type is the closed enumeration of `token.go`; the constants the
lexer uses that are not listed in `token.go` (`MINUS` … `NOT_EQ`) are included
because `lexer.go` references them.  The parser source is not part of the
repository snapshot (only `parser_test.go` is), so the parser is modelled
from the specification, definition by definition; those definitions carry a
`Modelled from the spec` doc comment.
-/

set_option autoImplicit false

namespace Monkey

/-! ### Token model (`token.go`) -/

/-- The closed set of token kinds.  In Go `TokenType` is a string; the
distinct string constants of `token.go` become distinct constructors here
(`typeString` below recovers the Go string value).  `MINUS`, `BANG`, `SLASH`,
`ASTERISK`, `LT`, `GT`, `EQ`, `NOT_EQ` are referenced by `lexer.go` although
the `token.go` snapshot does not list them.  `RETURN` is Modelled from the
spec: §4.3 dispatches statements on a `Return` kind, which appears nowhere in
`src/token/token.go`. -/
inductive TokenType where
  | ILLEGAL | EOF
  | IDENT | INT
  | ASSIGN | PLUS | MINUS | BANG | SLASH | ASTERISK
  | LT | GT | EQ | NOT_EQ
  | COMMA | SEMICOLON
  | LPAREN | RPAREN | LBRACE | RBRACE
  | FUNCTION | LET
  | RETURN
deriving DecidableEq

/-- The Go string value of each `TokenType` constant (used in parser
diagnostics).  Values for the constants missing from the `token.go` snapshot
are Modelled from the spec and the standard Monkey token set. -/
def typeString : TokenType → String
  | .ILLEGAL => "ILLEGAL"
  | .EOF => "EOF"
  | .IDENT => "IDENT"
  | .INT => "INT"
  | .ASSIGN => "="
  | .PLUS => "+"
  | .MINUS => "-"
  | .BANG => "!"
  | .SLASH => "/"
  | .ASTERISK => "*"
  | .LT => "<"
  | .GT => ">"
  | .EQ => "=="
  | .NOT_EQ => "!="
  | .COMMA => ","
  | .SEMICOLON => ";"
  | .LPAREN => "("
  | .RPAREN => ")"
  | .LBRACE => "\x7b"
  | .RBRACE => "\x7d"
  | .FUNCTION => "FUNCTION"
  | .LET => "LET"
  | .RETURN => "RETURN"

/-- `Token` from `token.go`: a kind and the literal source text. -/
structure Token where
  type : TokenType
  literal : String
deriving DecidableEq

/-- `LookupIdent` from `token.go`: the fixed keyword table holds exactly
`fn → FUNCTION` and `let → LET`; anything else is an `IDENT`. -/
def LookupIdent (ident : String) : TokenType :=
  if ident = "fn" then .FUNCTION
  else if ident = "let" then .LET
  else .IDENT

/-! ### Lexer state (`lexer.go`) -/

/-- The `Lexer` struct: input buffer plus the three scan fields. -/
structure Lexer where
  input : List Char
  position : Nat
  readPosition : Nat
  ch : Char
deriving DecidableEq

/-- `readChar`: set `ch` to `input[readPosition]` (or the NUL sentinel past
the end), move `position` to `readPosition`, and advance `readPosition`. -/
def readChar (l : Lexer) : Lexer :=
  let c := if l.input.length ≤ l.readPosition then Char.ofNat 0
           else l.input.getD l.readPosition (Char.ofNat 0)
  { l with ch := c, position := l.readPosition, readPosition := l.readPosition + 1 }

/-- `New`: the constructor zero-initializes the struct and calls `readChar`
once before returning. -/
def New (input : List Char) : Lexer :=
  readChar { input := input, position := 0, readPosition := 0, ch := Char.ofNat 0 }

/-- `peekChar`: `input[readPosition]` without advancing, NUL past the end. -/
def peekChar (l : Lexer) : Char :=
  if l.input.length ≤ l.readPosition then Char.ofNat 0
  else l.input.getD l.readPosition (Char.ofNat 0)

/-- `isLetter` from `lexer.go`; byte comparisons written on code points
(97 = a, 122 = z, 65 = A, 90 = Z). -/
def isLetter (ch : Char) : Bool :=
  (97 ≤ ch.toNat && ch.toNat ≤ 122) || (65 ≤ ch.toNat && ch.toNat ≤ 90) || ch = '_'

/-- `isDigit` from `lexer.go` (48 = 0, 57 = 9). -/
def isDigit (ch : Char) : Bool :=
  48 ≤ ch.toNat && ch.toNat ≤ 57

/-- The whitespace condition of `skipWhitespace`'s loop. -/
def isWhitespace (ch : Char) : Bool :=
  ch = ' ' || ch = '\t' || ch = '\r' || ch = '\n'

/-- Gas bound for the scan loops: past the end of the buffer a single
`readChar` forces `ch` to the NUL sentinel, which no loop condition accepts,
so `input.length - readPosition + 2` steps always suffice. -/
def lexMeasure (l : Lexer) : Nat :=
  if l.input.length ≤ l.readPosition then (if l.ch = Char.ofNat 0 then 0 else 1)
  else l.input.length - l.readPosition + 2

/-- Gas-indexed while-loop over the lexer state: run `readChar` while `cond`
holds of the current character.  Each Go scan loop is a wrapper applying this
at gas `lexMeasure l`, proved sufficient below. -/
def loopAux (cond : Char → Bool) : Nat → Lexer → Lexer
  | 0, l => l
  | gas+1, l => if cond l.ch then loopAux cond gas (readChar l) else l

/-- The whitespace-skipping loop of `skipWhitespace`. -/
def skipWhitespace (l : Lexer) : Lexer :=
  loopAux isWhitespace (lexMeasure l) l

/-- The letter loop of `readIdentifier`. -/
def skipLetters (l : Lexer) : Lexer :=
  loopAux isLetter (lexMeasure l) l

/-- A digit loop of `readNumber` (it has two). -/
def skipDigits (l : Lexer) : Lexer :=
  loopAux isDigit (lexMeasure l) l

/-- Go string slicing `input[a:b]`. -/
def substring (input : List Char) (a b : Nat) : String :=
  String.mk ((input.drop a).take (b - a))

/-- `readIdentifier`: remember `position`, advance while letter, return the
consumed slice together with the final state. -/
def readIdentifier (l : Lexer) : String × Lexer :=
  let l1 := skipLetters l
  (substring l1.input l.position l1.position, l1)

/-- `readNumber`: remember `position`, advance while digit; if the next
character is a dot, consume it and advance while digit again; return the
consumed slice together with the final state. -/
def readNumber (l : Lexer) : String × Lexer :=
  let l1 := skipDigits l
  let l2 := if l1.ch = '.' then skipDigits (readChar l1) else l1
  (substring l2.input l.position l2.position, l2)

/-- `newToken`: one-character literal token, Go `string(ch)`. -/
def newToken (tokenType : TokenType) (ch : Char) : Token :=
  ⟨tokenType, String.mk [ch]⟩

/-- The `switch l.ch` body of `NextToken`: dispatch on the current character
(the Go `switch` becomes an if-chain over the same distinct constants, in
source order) and advance past what was consumed.  The identifier/number
branches return without the trailing `readChar`, exactly as the Go code
returns early there. -/
def tokenDispatch (l : Lexer) : Token × Lexer :=
  if l.ch = '=' then
    if peekChar l = '=' then
      let ch := l.ch
      let l1 := readChar l
      (⟨TokenType.EQ, String.mk [ch, l1.ch]⟩, readChar l1)
    else
      (newToken TokenType.ASSIGN l.ch, readChar l)
  else if l.ch = '+' then (newToken TokenType.PLUS l.ch, readChar l)
  else if l.ch = '-' then (newToken TokenType.MINUS l.ch, readChar l)
  else if l.ch = '!' then
    if peekChar l = '=' then
      let ch := l.ch
      let l1 := readChar l
      (⟨TokenType.NOT_EQ, String.mk [ch, l1.ch]⟩, readChar l1)
    else
      (newToken TokenType.BANG l.ch, readChar l)
  else if l.ch = '/' then (newToken TokenType.SLASH l.ch, readChar l)
  else if l.ch = '*' then (newToken TokenType.ASTERISK l.ch, readChar l)
  else if l.ch = '<' then (newToken TokenType.LT l.ch, readChar l)
  else if l.ch = '>' then (newToken TokenType.GT l.ch, readChar l)
  else if l.ch = ';' then (newToken TokenType.SEMICOLON l.ch, readChar l)
  else if l.ch = '(' then (newToken TokenType.LPAREN l.ch, readChar l)
  else if l.ch = ')' then (newToken TokenType.RPAREN l.ch, readChar l)
  else if l.ch = ',' then (newToken TokenType.COMMA l.ch, readChar l)
  else if l.ch = '{' then (newToken TokenType.LBRACE l.ch, readChar l)
  else if l.ch = '}' then (newToken TokenType.RBRACE l.ch, readChar l)
  else if l.ch = Char.ofNat 0 then (⟨TokenType.EOF, ""⟩, readChar l)
  else if isLetter l.ch then
    let r := readIdentifier l
    (⟨LookupIdent r.1, r.1⟩, r.2)
  else if isDigit l.ch then
    let r := readNumber l
    (⟨TokenType.INT, r.1⟩, r.2)
  else (newToken TokenType.ILLEGAL l.ch, readChar l)

/-- `NextToken` from `lexer.go`: skip whitespace, then dispatch on the
current character. -/
def NextToken (l0 : Lexer) : Token × Lexer :=
  tokenDispatch (skipWhitespace l0)

/-- The lexer state after `n` further calls to `NextToken`. -/
def stateAfter (l : Lexer) : Nat → Lexer
  | 0 => l
  | n+1 => stateAfter (NextToken l).2 n

/-- The token produced by the `(n+1)`-th call to `NextToken` starting at `l`. -/
def nthToken (l : Lexer) (n : Nat) : Token :=
  (NextToken (stateAfter l n)).1

theorem stateAfter_zero (l : Lexer) : stateAfter l 0 = l := rfl

theorem stateAfter_succ (l : Lexer) (n : Nat) :
    stateAfter l (n + 1) = stateAfter (NextToken l).2 n := rfl

theorem nthToken_succ (l : Lexer) (n : Nat) :
    nthToken l (n + 1) = nthToken (NextToken l).2 n := rfl

/-! ### Scan-state invariant -/

/-- The character at buffer index `p`, with the Go NUL sentinel past the
end.  `readChar` always stores `chAt input readPosition` into `ch`. -/
def chAt (input : List Char) (p : Nat) : Char :=
  if input.length ≤ p then Char.ofNat 0 else input.getD p (Char.ofNat 0)

/-- Well-formed scan state: `readPosition` is one past `position`, and `ch`
caches the character at `position`.  Established by every `readChar`. -/
def Wf (l : Lexer) : Prop :=
  l.readPosition = l.position + 1 ∧ l.ch = chAt l.input l.position

theorem readChar_input (l : Lexer) : (readChar l).input = l.input := rfl

theorem readChar_position (l : Lexer) : (readChar l).position = l.readPosition := rfl

theorem wf_readChar (l : Lexer) : Wf (readChar l) := by
  refine ⟨rfl, ?_⟩
  simp [readChar, chAt]

theorem wf_New (input : List Char) : Wf (New input) := wf_readChar _

theorem readChar_position_succ {l : Lexer} (h : Wf l) :
    (readChar l).position = l.position + 1 := by
  rw [readChar_position, h.1]

/-- A gas of `0` is only reached in the terminal configuration. -/
theorem lexMeasure_eq_zero {l : Lexer} (h : lexMeasure l = 0) :
    l.input.length ≤ l.readPosition ∧ l.ch = Char.ofNat 0 := by
  unfold lexMeasure at h
  split at h
  · split at h
    · exact ⟨by assumption, by assumption⟩
    · exact absurd h (by omega)
  · exact absurd h (by omega)

/-- `readChar` strictly decreases the gas whenever the current character is
not the NUL sentinel. -/
theorem lexMeasure_readChar_lt {l : Lexer} (h : l.ch ≠ Char.ofNat 0) :
    lexMeasure (readChar l) < lexMeasure l := by
  unfold lexMeasure readChar
  by_cases hend : l.input.length ≤ l.readPosition
  · simp only [hend, if_pos, if_true]
    have h1 : l.input.length ≤ l.readPosition + 1 := by omega
    simp [hend, h1, h]
  · simp only [hend, if_neg, if_false]
    by_cases hend1 : l.input.length ≤ l.readPosition + 1
    · simp only [hend1, if_pos]
      split <;> omega
    · simp only [hend1, if_neg, if_false]
      omega

/-- Any gas at least `lexMeasure l` produces the same loop result. -/
theorem loopAux_gas_irrel (cond : Char → Bool) (hc : cond (Char.ofNat 0) = false) :
    ∀ g1 g2 l, lexMeasure l ≤ g1 → lexMeasure l ≤ g2 →
      loopAux cond g1 l = loopAux cond g2 l := by
  intro g1
  induction g1 with
  | zero =>
    intro g2 l h1 _h2
    obtain ⟨-, hch⟩ := lexMeasure_eq_zero (Nat.le_zero.mp h1)
    have hcond : cond l.ch = false := by rw [hch]; exact hc
    cases g2 with
    | zero => rfl
    | succ g2 => simp [loopAux, hcond]
  | succ g1 ih =>
    intro g2 l h1 h2
    by_cases hcond : cond l.ch = true
    · have hch : l.ch ≠ Char.ofNat 0 := by
        intro h; rw [h] at hcond; rw [hc] at hcond; exact Bool.false_ne_true hcond
      have hlt := lexMeasure_readChar_lt hch
      cases g2 with
      | zero =>
        obtain ⟨-, hch0⟩ := lexMeasure_eq_zero (Nat.le_zero.mp h2)
        exact absurd hch0 hch
      | succ g2 =>
        simp only [loopAux, hcond, if_true]
        exact ih g2 (readChar l) (by omega) (by omega)
    · have hcond' : cond l.ch = false := Bool.not_eq_true _ ▸ eq_false_of_ne_true hcond
      cases g2 with
      | zero =>
        obtain ⟨-, hch0⟩ := lexMeasure_eq_zero (Nat.le_zero.mp h2)
        simp [loopAux, hcond']
      | succ g2 => simp [loopAux, hcond']

/-- The wrapped loops satisfy the Go while-loop unfolding equation. -/
theorem loop_unfold (cond : Char → Bool) (hc : cond (Char.ofNat 0) = false) (l : Lexer) :
    loopAux cond (lexMeasure l) l
      = if cond l.ch then loopAux cond (lexMeasure (readChar l)) (readChar l) else l := by
  by_cases hcond : cond l.ch = true
  · have hch : l.ch ≠ Char.ofNat 0 := by
      intro h; rw [h] at hcond; rw [hc] at hcond; exact Bool.false_ne_true hcond
    have hlt := lexMeasure_readChar_lt hch
    cases hm : lexMeasure l with
    | zero =>
      obtain ⟨-, hch0⟩ := lexMeasure_eq_zero hm
      exact absurd hch0 hch
    | succ g =>
      simp only [loopAux, hcond, if_true]
      exact loopAux_gas_irrel cond hc g (lexMeasure (readChar l)) (readChar l) (by omega) le_rfl
  · have hcond' : cond l.ch = false := Bool.not_eq_true _ ▸ eq_false_of_ne_true hcond
    cases hm : lexMeasure l with
    | zero => simp [loopAux, hcond']
    | succ g => simp [loopAux, hcond']

theorem skipWhitespace_unfold (l : Lexer) :
    skipWhitespace l
      = if isWhitespace l.ch then skipWhitespace (readChar l) else l :=
  loop_unfold isWhitespace (by decide) l

theorem skipLetters_unfold (l : Lexer) :
    skipLetters l = if isLetter l.ch then skipLetters (readChar l) else l :=
  loop_unfold isLetter (by decide) l

theorem skipDigits_unfold (l : Lexer) :
    skipDigits l = if isDigit l.ch then skipDigits (readChar l) else l :=
  loop_unfold isDigit (by decide) l

/-- Abbreviation for the wrapped loop, used by the generic lemmas. -/
def loopW (cond : Char → Bool) (l : Lexer) : Lexer :=
  loopAux cond (lexMeasure l) l

theorem skipWhitespace_eq_loopW (l : Lexer) : skipWhitespace l = loopW isWhitespace l := rfl

theorem skipLetters_eq_loopW (l : Lexer) : skipLetters l = loopW isLetter l := rfl

theorem skipDigits_eq_loopW (l : Lexer) : skipDigits l = loopW isDigit l := rfl

theorem loopW_unfold (cond : Char → Bool) (hc : cond (Char.ofNat 0) = false) (l : Lexer) :
    loopW cond l = if cond l.ch then loopW cond (readChar l) else l :=
  loop_unfold cond hc l

/-- Scan loops preserve well-formedness, never move the scan position
backwards, leave the buffer unchanged, and stop on a character refusing the
condition. -/
theorem loopW_state (cond : Char → Bool) (hc : cond (Char.ofNat 0) = false) :
    ∀ l, Wf l →
      Wf (loopW cond l) ∧ l.position ≤ (loopW cond l).position ∧
      (loopW cond l).input = l.input ∧ cond (loopW cond l).ch = false := by
  suffices H : ∀ g l, lexMeasure l ≤ g → Wf l →
      Wf (loopW cond l) ∧ l.position ≤ (loopW cond l).position ∧
      (loopW cond l).input = l.input ∧ cond (loopW cond l).ch = false by
    intro l; exact H (lexMeasure l) l le_rfl
  intro g
  induction g with
  | zero =>
    intro l hg hwf
    obtain ⟨-, hch⟩ := lexMeasure_eq_zero (Nat.le_zero.mp hg)
    have hcond : cond l.ch = false := by rw [hch]; exact hc
    rw [loopW_unfold cond hc, hcond, if_neg (by simp)]
    exact ⟨hwf, le_rfl, rfl, hcond⟩
  | succ g ih =>
    intro l hg hwf
    by_cases hcond : cond l.ch = true
    · have hch : l.ch ≠ Char.ofNat 0 := by
        intro h; rw [h] at hcond; rw [hc] at hcond; exact Bool.false_ne_true hcond
      have hlt := lexMeasure_readChar_lt hch
      rw [loopW_unfold cond hc, hcond, if_pos rfl]
      obtain ⟨h1, h2, h3, h4⟩ := ih (readChar l) (by omega) (wf_readChar l)
      refine ⟨h1, ?_, h3.trans (readChar_input l), h4⟩
      have := readChar_position_succ hwf
      omega
    · have hcond' : cond l.ch = false := Bool.not_eq_true _ ▸ eq_false_of_ne_true hcond
      rw [loopW_unfold cond hc, hcond', if_neg (by simp)]
      exact ⟨hwf, le_rfl, rfl, hcond'⟩

/-- On a well-formed state the loop's final position is the start position
plus the length of the run of accepted characters in the buffer. -/
theorem loopW_position_takeWhile (cond : Char → Bool) (hc : cond (Char.ofNat 0) = false) :
    ∀ l, Wf l →
      (loopW cond l).position
        = l.position + ((l.input.drop l.position).takeWhile cond).length := by
  suffices H : ∀ g l, lexMeasure l ≤ g → Wf l →
      (loopW cond l).position
        = l.position + ((l.input.drop l.position).takeWhile cond).length by
    intro l; exact H (lexMeasure l) l le_rfl
  intro g
  induction g with
  | zero =>
    intro l hg hwf
    obtain ⟨-, hch⟩ := lexMeasure_eq_zero (Nat.le_zero.mp hg)
    have hcond : cond l.ch = false := by rw [hch]; exact hc
    rw [loopW_unfold cond hc, hcond, if_neg (by simp)]
    rcases Nat.lt_or_ge l.position l.input.length with hlt | hge
    · rw [List.drop_eq_getElem_cons hlt, List.takeWhile_cons]
      have : l.input[l.position] = l.ch := by
        rw [hwf.2, chAt, if_neg (by omega), List.getD_eq_getElem _ _ hlt]
      rw [this, hcond]
      simp
    · rw [List.drop_eq_nil_of_le hge]
      simp
  | succ g ih =>
    intro l hg hwf
    by_cases hcond : cond l.ch = true
    · have hch : l.ch ≠ Char.ofNat 0 := by
        intro h; rw [h] at hcond; rw [hc] at hcond; exact Bool.false_ne_true hcond
      have hlt := lexMeasure_readChar_lt hch
      have hposlt : l.position < l.input.length := by
        by_contra hge
        have : l.ch = Char.ofNat 0 := by
          rw [hwf.2, chAt, if_pos (by omega)]
        exact hch this
      rw [loopW_unfold cond hc, hcond, if_pos rfl]
      have hrec := ih (readChar l) (by omega) (wf_readChar l)
      rw [hrec, readChar_input, readChar_position_succ hwf]
      have hcell : l.input[l.position] = l.ch := by
        rw [hwf.2, chAt, if_neg (by omega), List.getD_eq_getElem _ _ hposlt]
      rw [List.drop_eq_getElem_cons hposlt, List.takeWhile_cons, hcell, hcond]
      simp only [if_true, List.length_cons]
      omega
    · have hcond' : cond l.ch = false := Bool.not_eq_true _ ▸ eq_false_of_ne_true hcond
      rw [loopW_unfold cond hc, hcond', if_neg (by simp)]
      rcases Nat.lt_or_ge l.position l.input.length with hlt | hge
      · rw [List.drop_eq_getElem_cons hlt, List.takeWhile_cons]
        have : l.input[l.position] = l.ch := by
          rw [hwf.2, chAt, if_neg (by omega), List.getD_eq_getElem _ _ hlt]
        rw [this, hcond']
        simp
      · rw [List.drop_eq_nil_of_le hge]
        simp

/-- Entering a loop with an accepted character moves the position strictly
forward. -/
theorem loopW_position_strict (cond : Char → Bool) (hc : cond (Char.ofNat 0) = false)
    (l : Lexer) (hwf : Wf l) (hcond : cond l.ch = true) :
    l.position + 1 ≤ (loopW cond l).position := by
  rw [loopW_unfold cond hc, hcond, if_pos rfl]
  have h1 := (loopW_state cond hc (readChar l) (wf_readChar l)).2.1
  have h2 := readChar_position_succ hwf
  omega

theorem readIdentifier_state (l : Lexer) (hwf : Wf l) (hl : isLetter l.ch = true) :
    Wf (readIdentifier l).2 ∧ l.position + 1 ≤ (readIdentifier l).2.position ∧
      (readIdentifier l).2.input = l.input := by
  refine ⟨(loopW_state isLetter (by decide) l hwf).1, ?_, (loopW_state isLetter (by decide) l hwf).2.2.1⟩
  exact loopW_position_strict isLetter (by decide) l hwf hl

theorem readNumber_snd (l : Lexer) :
    (readNumber l).2
      = if (skipDigits l).ch = '.' then skipDigits (readChar (skipDigits l)) else skipDigits l := rfl

theorem readNumber_state (l : Lexer) (hwf : Wf l) (hd : isDigit l.ch = true) :
    Wf (readNumber l).2 ∧ l.position + 1 ≤ (readNumber l).2.position ∧
      (readNumber l).2.input = l.input := by
  rw [readNumber_snd]
  simp only [skipDigits_eq_loopW]
  obtain ⟨hwf1, hpos1, hin1, -⟩ := loopW_state isDigit (by decide) l hwf
  have hstrict1 := loopW_position_strict isDigit (by decide) l hwf hd
  by_cases hdot : (loopW isDigit l).ch = '.'
  · rw [if_pos hdot]
    obtain ⟨hwf2, hpos2, hin2, -⟩ :=
      loopW_state isDigit (by decide) (readChar (loopW isDigit l)) (wf_readChar _)
    have h3 := readChar_position_succ hwf1
    refine ⟨hwf2, by omega, ?_⟩
    rw [hin2, readChar_input, hin1]
  · rw [if_neg hdot]
    exact ⟨hwf1, hstrict1, hin1⟩

/-- The single-character operators and delimiters of the `switch`, with the
fixed kind each is mapped to (`=` and `!` are excluded: they need a peek). -/
def singleCharKind (c : Char) : Option TokenType :=
  if c = '+' then some .PLUS
  else if c = '-' then some .MINUS
  else if c = '/' then some .SLASH
  else if c = '*' then some .ASTERISK
  else if c = '<' then some .LT
  else if c = '>' then some .GT
  else if c = ';' then some .SEMICOLON
  else if c = '(' then some .LPAREN
  else if c = ')' then some .RPAREN
  else if c = ',' then some .COMMA
  else if c = '{' then some .LBRACE
  else if c = '}' then some .RBRACE
  else none

/-- Case analysis on `singleCharKind`: the mapped kind is never `EOF`, and
dispatch on any of the twelve characters produces the one-character token and
a single advance. -/
theorem singleCharKind_cases {c : Char} {k : TokenType}
    (hk : singleCharKind c = some k) :
    k ≠ TokenType.EOF ∧
      ∀ l : Lexer, l.ch = c → tokenDispatch l = (newToken k l.ch, readChar l) := by
  rcases em (c = '+') with h1 | h1
  · subst h1
    rw [show singleCharKind '+' = some TokenType.PLUS from rfl] at hk
    rw [← Option.some.inj hk]
    exact ⟨by decide, fun l hl => by simp [tokenDispatch, hl]⟩
  rcases em (c = '-') with h2 | h2
  · subst h2
    rw [show singleCharKind '-' = some TokenType.MINUS from rfl] at hk
    rw [← Option.some.inj hk]
    exact ⟨by decide, fun l hl => by simp [tokenDispatch, hl]⟩
  rcases em (c = '/') with h3 | h3
  · subst h3
    rw [show singleCharKind '/' = some TokenType.SLASH from rfl] at hk
    rw [← Option.some.inj hk]
    exact ⟨by decide, fun l hl => by simp [tokenDispatch, hl]⟩
  rcases em (c = '*') with h4 | h4
  · subst h4
    rw [show singleCharKind '*' = some TokenType.ASTERISK from rfl] at hk
    rw [← Option.some.inj hk]
    exact ⟨by decide, fun l hl => by simp [tokenDispatch, hl]⟩
  rcases em (c = '<') with h5 | h5
  · subst h5
    rw [show singleCharKind '<' = some TokenType.LT from rfl] at hk
    rw [← Option.some.inj hk]
    exact ⟨by decide, fun l hl => by simp [tokenDispatch, hl]⟩
  rcases em (c = '>') with h6 | h6
  · subst h6
    rw [show singleCharKind '>' = some TokenType.GT from rfl] at hk
    rw [← Option.some.inj hk]
    exact ⟨by decide, fun l hl => by simp [tokenDispatch, hl]⟩
  rcases em (c = ';') with h7 | h7
  · subst h7
    rw [show singleCharKind ';' = some TokenType.SEMICOLON from rfl] at hk
    rw [← Option.some.inj hk]
    exact ⟨by decide, fun l hl => by simp [tokenDispatch, hl]⟩
  rcases em (c = '(') with h8 | h8
  · subst h8
    rw [show singleCharKind '(' = some TokenType.LPAREN from rfl] at hk
    rw [← Option.some.inj hk]
    exact ⟨by decide, fun l hl => by simp [tokenDispatch, hl]⟩
  rcases em (c = ')') with h9 | h9
  · subst h9
    rw [show singleCharKind ')' = some TokenType.RPAREN from rfl] at hk
    rw [← Option.some.inj hk]
    exact ⟨by decide, fun l hl => by simp [tokenDispatch, hl]⟩
  rcases em (c = ',') with h10 | h10
  · subst h10
    rw [show singleCharKind ',' = some TokenType.COMMA from rfl] at hk
    rw [← Option.some.inj hk]
    exact ⟨by decide, fun l hl => by simp [tokenDispatch, hl]⟩
  rcases em (c = '{') with h11 | h11
  · subst h11
    rw [show singleCharKind '{' = some TokenType.LBRACE from rfl] at hk
    rw [← Option.some.inj hk]
    exact ⟨by decide, fun l hl => by simp [tokenDispatch, hl]⟩
  rcases em (c = '}') with h12 | h12
  · subst h12
    rw [show singleCharKind '}' = some TokenType.RBRACE from rfl] at hk
    rw [← Option.some.inj hk]
    exact ⟨by decide, fun l hl => by simp [tokenDispatch, hl]⟩
  exfalso
  unfold singleCharKind at hk
  rw [if_neg h1, if_neg h2, if_neg h3, if_neg h4, if_neg h5, if_neg h6, if_neg h7,
    if_neg h8, if_neg h9, if_neg h10, if_neg h11, if_neg h12] at hk
  exact Option.noConfusion hk

theorem tokenDispatch_single (l : Lexer) {k : TokenType}
    (hk : singleCharKind l.ch = some k) :
    tokenDispatch l = (newToken k l.ch, readChar l) :=
  (singleCharKind_cases hk).2 l rfl

/-- A character outside the table is none of the twelve literals. -/
theorem singleCharKind_none {c : Char} (hck : singleCharKind c = none) :
    c ≠ '+' ∧ c ≠ '-' ∧ c ≠ '/' ∧ c ≠ '*' ∧ c ≠ '<' ∧ c ≠ '>' ∧ c ≠ ';' ∧
      c ≠ '(' ∧ c ≠ ')' ∧ c ≠ ',' ∧ c ≠ '{' ∧ c ≠ '}' := by
  refine ⟨?_, ?_, ?_, ?_, ?_, ?_, ?_, ?_, ?_, ?_, ?_, ?_⟩ <;>
    (intro he; subst he; exact absurd hck (by decide))

theorem tokenDispatch_eq_eq (l : Lexer) (h : l.ch = '=') (hp : peekChar l = '=') :
    tokenDispatch l = (⟨TokenType.EQ, String.mk [l.ch, (readChar l).ch]⟩, readChar (readChar l)) := by
  rw [tokenDispatch, if_pos h, if_pos hp]

theorem tokenDispatch_assign (l : Lexer) (h : l.ch = '=') (hp : peekChar l ≠ '=') :
    tokenDispatch l = (newToken TokenType.ASSIGN l.ch, readChar l) := by
  rw [tokenDispatch, if_pos h, if_neg hp]

theorem tokenDispatch_noteq (l : Lexer) (h : l.ch = '!') (hp : peekChar l = '=') :
    tokenDispatch l = (⟨TokenType.NOT_EQ, String.mk [l.ch, (readChar l).ch]⟩, readChar (readChar l)) := by
  rw [tokenDispatch, if_neg (by rw [h]; decide), if_neg (by rw [h]; decide),
    if_neg (by rw [h]; decide), if_pos h, if_pos hp]

theorem tokenDispatch_bang (l : Lexer) (h : l.ch = '!') (hp : peekChar l ≠ '=') :
    tokenDispatch l = (newToken TokenType.BANG l.ch, readChar l) := by
  rw [tokenDispatch, if_neg (by rw [h]; decide), if_neg (by rw [h]; decide),
    if_neg (by rw [h]; decide), if_pos h, if_neg hp]

theorem tokenDispatch_eof (l : Lexer) (h : l.ch = Char.ofNat 0) :
    tokenDispatch l = (⟨TokenType.EOF, ""⟩, readChar l) := by
  rw [tokenDispatch, if_neg (by rw [h]; decide), if_neg (by rw [h]; decide),
    if_neg (by rw [h]; decide), if_neg (by rw [h]; decide), if_neg (by rw [h]; decide),
    if_neg (by rw [h]; decide), if_neg (by rw [h]; decide), if_neg (by rw [h]; decide),
    if_neg (by rw [h]; decide), if_neg (by rw [h]; decide), if_neg (by rw [h]; decide),
    if_neg (by rw [h]; decide), if_neg (by rw [h]; decide), if_neg (by rw [h]; decide),
    if_pos h]

theorem tokenDispatch_default (l : Lexer)
    (hck : singleCharKind l.ch = none) (h1 : l.ch ≠ '=') (h2 : l.ch ≠ '!')
    (h3 : l.ch ≠ Char.ofNat 0) :
    tokenDispatch l =
      if isLetter l.ch then
        (⟨LookupIdent (readIdentifier l).1, (readIdentifier l).1⟩, (readIdentifier l).2)
      else if isDigit l.ch then (⟨TokenType.INT, (readNumber l).1⟩, (readNumber l).2)
      else (newToken TokenType.ILLEGAL l.ch, readChar l) := by
  obtain ⟨g1, g2, g3, g4, g5, g6, g7, g8, g9, g10, g11, g12⟩ := singleCharKind_none hck
  rw [tokenDispatch, if_neg h1, if_neg g1, if_neg g2, if_neg h2, if_neg g3, if_neg g4,
    if_neg g5, if_neg g6, if_neg g7, if_neg g8, if_neg g9, if_neg g10, if_neg g11,
    if_neg g12, if_neg h3]

/-- After dispatch from a well-formed state the state is well-formed again,
the scan position has strictly advanced, and the buffer is unchanged. -/
theorem tokenDispatch_state (l : Lexer) (hwf : Wf l) :
    Wf (tokenDispatch l).2 ∧ l.position < (tokenDispatch l).2.position ∧
      (tokenDispatch l).2.input = l.input := by
  have hone : ∀ l' : Lexer, Wf l' →
      Wf (readChar l') ∧ l'.position < (readChar l').position ∧ (readChar l').input = l'.input := by
    intro l' h
    exact ⟨wf_readChar l', by rw [readChar_position_succ h]; omega, rfl⟩
  have htwo : Wf (readChar (readChar l)) ∧ l.position < (readChar (readChar l)).position ∧
      (readChar (readChar l)).input = l.input := by
    have g1 := hone l hwf
    have g2 := hone (readChar l) g1.1
    exact ⟨g2.1, by omega, by rw [g2.2.2, g1.2.2]⟩
  rcases hck : singleCharKind l.ch with - | k
  · by_cases h1 : l.ch = '='
    · by_cases hp : peekChar l = '='
      · rw [tokenDispatch_eq_eq l h1 hp]; exact htwo
      · rw [tokenDispatch_assign l h1 hp]; exact hone l hwf
    · by_cases h2 : l.ch = '!'
      · by_cases hp : peekChar l = '='
        · rw [tokenDispatch_noteq l h2 hp]; exact htwo
        · rw [tokenDispatch_bang l h2 hp]; exact hone l hwf
      · by_cases h3 : l.ch = Char.ofNat 0
        · rw [tokenDispatch_eof l h3]; exact hone l hwf
        · rw [tokenDispatch_default l hck h1 h2 h3]
          by_cases hl : isLetter l.ch
          · rw [if_pos hl]
            have h := readIdentifier_state l hwf hl
            exact ⟨h.1, h.2.1, h.2.2⟩
          · rw [if_neg hl]
            by_cases hd : isDigit l.ch
            · rw [if_pos hd]
              have h := readNumber_state l hwf hd
              exact ⟨h.1, h.2.1, h.2.2⟩
            · rw [if_neg hd]; exact hone l hwf
  · rw [tokenDispatch_single l hck]; exact hone l hwf

/-- `NextToken` preserves well-formedness, strictly advances the scan
position, and never touches the buffer. -/
theorem nextToken_state (l : Lexer) (hwf : Wf l) :
    Wf (NextToken l).2 ∧ l.position < (NextToken l).2.position ∧
      (NextToken l).2.input = l.input := by
  obtain ⟨hwfs, hpos, hin, -⟩ := loopW_state isWhitespace (by decide) l hwf
  rw [← skipWhitespace_eq_loopW] at hwfs hpos hin
  have hd := tokenDispatch_state (skipWhitespace l) hwfs
  show Wf (tokenDispatch (skipWhitespace l)).2 ∧
      l.position < (tokenDispatch (skipWhitespace l)).2.position ∧
      (tokenDispatch (skipWhitespace l)).2.input = l.input
  exact ⟨hd.1, by omega, by rw [hd.2.2]; exact hin⟩

/-- Past the end of the buffer, a well-formed state caches the NUL
sentinel. -/
theorem ch_at_end {l : Lexer} (hwf : Wf l) (hend : l.input.length ≤ l.position) :
    l.ch = Char.ofNat 0 := by
  rw [hwf.2, chAt, if_pos hend]

/-- Past the end of the buffer, `NextToken` returns the `EOF` token with
empty literal and merely advances one sentinel position. -/
theorem nextToken_at_end (l : Lexer) (hwf : Wf l) (hend : l.input.length ≤ l.position) :
    NextToken l = (⟨TokenType.EOF, ""⟩, readChar l) := by
  have hch : l.ch = Char.ofNat 0 := ch_at_end hwf hend
  have hsw : skipWhitespace l = l := by
    rw [skipWhitespace_unfold, hch, if_neg (by decide)]
  show tokenDispatch (skipWhitespace l) = _
  rw [hsw, tokenDispatch_eof l hch]

/-- Once a well-formed state is past the end, every subsequent token is the
`EOF` token. -/
theorem nthToken_end (l : Lexer) (hwf : Wf l) (hend : l.input.length ≤ l.position) :
    ∀ n, nthToken l n = ⟨TokenType.EOF, ""⟩ := by
  intro n
  induction n generalizing l with
  | zero =>
    show (NextToken l).1 = _
    rw [nextToken_at_end l hwf hend]
  | succ n ih =>
    show nthToken (NextToken l).2 n = _
    rw [nextToken_at_end l hwf hend]
    refine ih (readChar l) (wf_readChar l) ?_
    rw [readChar_input, readChar_position_succ hwf]
    omega

theorem stateAfter_facts (l : Lexer) (hwf : Wf l) :
    ∀ n, Wf (stateAfter l n) ∧ l.position + n ≤ (stateAfter l n).position ∧
      (stateAfter l n).input = l.input := by
  intro n
  induction n generalizing l with
  | zero =>
    simp only [stateAfter_zero]
    exact ⟨hwf, by omega, trivial⟩
  | succ n ih =>
    simp only [stateAfter_succ]
    have h1 := nextToken_state l hwf
    have h2 := ih (NextToken l).2 h1.1
    exact ⟨h2.1, by omega, by rw [h2.2.2, h1.2.2]⟩

theorem stateAfter_add (l : Lexer) (a b : Nat) :
    stateAfter l (a + b) = stateAfter (stateAfter l a) b := by
  induction a generalizing l with
  | zero => rw [Nat.zero_add, stateAfter_zero]
  | succ a ih =>
    rw [show a + 1 + b = (a + b) + 1 from by omega, stateAfter_succ, stateAfter_succ]
    exact ih (NextToken l).2

/-- The dispatch returns an `EOF` token only when the current character is
the NUL sentinel. -/
theorem tokenDispatch_eof_type (l : Lexer)
    (htype : (tokenDispatch l).1.type = TokenType.EOF) :
    l.ch = Char.ofNat 0 := by
  rcases hck : singleCharKind l.ch with - | k
  · by_cases h1 : l.ch = '='
    · by_cases hp : peekChar l = '='
      · rw [tokenDispatch_eq_eq l h1 hp] at htype; simp at htype
      · rw [tokenDispatch_assign l h1 hp] at htype; simp [newToken] at htype
    · by_cases h2 : l.ch = '!'
      · by_cases hp : peekChar l = '='
        · rw [tokenDispatch_noteq l h2 hp] at htype; simp at htype
        · rw [tokenDispatch_bang l h2 hp] at htype; simp [newToken] at htype
      · by_cases h3 : l.ch = Char.ofNat 0
        · exact h3
        · exfalso
          rw [tokenDispatch_default l hck h1 h2 h3] at htype
          by_cases hl : isLetter l.ch
          · rw [if_pos hl] at htype
            revert htype
            show LookupIdent (readIdentifier l).1 = TokenType.EOF → False
            unfold LookupIdent
            split_ifs <;> intro htype <;> exact absurd htype (by decide)
          · rw [if_neg hl] at htype
            by_cases hd : isDigit l.ch
            · rw [if_pos hd] at htype; simp at htype
            · rw [if_neg hd] at htype; simp [newToken] at htype
  · rw [tokenDispatch_single l hck] at htype
    exact absurd htype (singleCharKind_cases hck).1

/-- If the buffer contains no NUL byte, a returned `EOF` token certifies
that the scan state has passed the end of the buffer. -/
theorem eof_only_at_end (l : Lexer) (hwf : Wf l)
    (hnz : ∀ c ∈ l.input, c ≠ Char.ofNat 0)
    (htype : (NextToken l).1.type = TokenType.EOF) :
    l.input.length ≤ (NextToken l).2.position := by
  obtain ⟨hwfs, hpos, hin, -⟩ := loopW_state isWhitespace (by decide) l hwf
  rw [← skipWhitespace_eq_loopW] at hwfs hpos hin
  have hch : (skipWhitespace l).ch = Char.ofNat 0 :=
    tokenDispatch_eof_type (skipWhitespace l) htype
  rcases Nat.lt_or_ge (skipWhitespace l).position l.input.length with hlt | hge
  · exfalso
    have hch0 : (skipWhitespace l).ch ≠ Char.ofNat 0 := by
      rw [hwfs.2, chAt, hin, if_neg (by omega), List.getD_eq_getElem _ _ hlt]
      exact hnz _ (List.getElem_mem hlt)
    exact hch0 hch
  · have heq : NextToken l = (⟨TokenType.EOF, ""⟩, readChar (skipWhitespace l)) :=
      tokenDispatch_eof (skipWhitespace l) hch
    rw [heq, readChar_position_succ hwfs]
    omega

/-! ### The number lexeme (claim C6) -/

/-- Spec-side characterization of the number lexeme (for the refinement
claim about `readNumber`): the maximal run of digits, extended by a dot and
the following maximal digit run when a dot immediately follows. -/
def maximalNumberLexeme (xs : List Char) : List Char :=
  let intPart := xs.takeWhile isDigit
  let rest := xs.drop intPart.length
  if rest.head? = some '.' then intPart ++ '.' :: rest.tail.takeWhile isDigit
  else intPart

theorem take_takeWhile (p : Char → Bool) :
    ∀ xs : List Char, xs.take (xs.takeWhile p).length = xs.takeWhile p := by
  intro xs
  induction xs with
  | nil => rfl
  | cons a t ih =>
    rw [List.takeWhile_cons]
    by_cases hpa : p a
    · simp only [hpa, if_true, List.length_cons, List.take_succ_cons, ih]
    · simp [hpa]

theorem readNumber_fst (l : Lexer) :
    (readNumber l).1 = substring (readNumber l).2.input l.position (readNumber l).2.position := rfl

/-- The literal returned by `readNumber` is exactly the spec's maximal
number lexeme starting at the current scan position. -/
theorem readNumber_literal (l : Lexer) (hwf : Wf l) :
    (readNumber l).1 = String.mk (maximalNumberLexeme (l.input.drop l.position)) := by
  obtain ⟨hwf1, hpos1, hin1, hstop1⟩ := loopW_state isDigit (by decide) l hwf
  have hp1 := loopW_position_takeWhile isDigit (by decide) l hwf
  rw [← skipDigits_eq_loopW] at hwf1 hpos1 hin1 hstop1 hp1
  set xs := l.input.drop l.position with hxsdef
  set k1 := (xs.takeWhile isDigit).length with hk1def
  have hk1le : k1 ≤ l.input.length - l.position := by
    rw [hk1def]
    have h := ( List.takeWhile_prefix isDigit (l := xs)).length_le
    rw [hxsdef, List.length_drop] at h
    rw [hxsdef]
    exact h
  have hxs_take : xs.take k1 = xs.takeWhile isDigit := by
    rw [hk1def]
    exact take_takeWhile isDigit xs
  have hxs_split : xs = xs.takeWhile isDigit ++ xs.drop k1 := by
    rw [← hxs_take]
    exact (List.take_append_drop k1 xs).symm
  have hdropk1 : xs.drop k1 = l.input.drop (l.position + k1) := by
    rw [hxsdef, List.drop_drop]
  rw [readNumber_fst, readNumber_snd]
  by_cases hdot : (skipDigits l).ch = '.'
  · rw [if_pos hdot]
    have hlt1 : l.position + k1 < l.input.length := by
      by_contra hge
      have hz : (skipDigits l).ch = Char.ofNat 0 := by
        rw [hwf1.2, hin1, hp1, chAt, if_pos (by omega)]
      rw [hdot] at hz
      exact absurd hz (by decide)
    have hcell : l.input[l.position + k1] = '.' := by
      have hch := hwf1.2
      rw [hin1, hp1, chAt, if_neg (by omega), List.getD_eq_getElem _ _ hlt1] at hch
      rw [← hch]
      exact hdot
    have hcons : l.input.drop (l.position + k1) = '.' :: l.input.drop (l.position + k1 + 1) := by
      rw [List.drop_eq_getElem_cons hlt1, hcell]
    have hrcpos : (readChar (skipDigits l)).position = l.position + k1 + 1 := by
      rw [readChar_position_succ hwf1, hp1]
    have hrcin : (readChar (skipDigits l)).input = l.input := by
      rw [readChar_input, hin1]
    obtain ⟨hwf2, hpos2, hin2, -⟩ :=
      loopW_state isDigit (by decide) (readChar (skipDigits l)) (wf_readChar _)
    have hp2 := loopW_position_takeWhile isDigit (by decide) (readChar (skipDigits l)) (wf_readChar _)
    rw [← skipDigits_eq_loopW] at hwf2 hpos2 hin2 hp2
    rw [hrcin, hrcpos] at hp2
    set d2 := (l.input.drop (l.position + k1 + 1)).takeWhile isDigit with hd2def
    have hl2in : (skipDigits (readChar (skipDigits l))).input = l.input := by
      rw [hin2, hrcin]
    unfold substring
    rw [hl2in, hp2, ← hxsdef,
      show l.position + k1 + 1 + d2.length - l.position = k1 + 1 + d2.length from by omega]
    refine congrArg String.mk ?_
    conv_lhs => rw [hxs_split]
    rw [List.take_append_eq_append_take,
      List.take_of_length_le (by rw [← hk1def]; omega),
      show k1 + 1 + d2.length - (xs.takeWhile isDigit).length = d2.length + 1 from by
        rw [← hk1def]; omega,
      hdropk1, hcons, List.take_succ_cons,
      show (l.input.drop (l.position + k1 + 1)).take d2.length
          = (l.input.drop (l.position + k1 + 1)).takeWhile isDigit from by
        rw [hd2def]; exact take_takeWhile isDigit _]
    simp only [maximalNumberLexeme, ← hk1def, hdropk1, hcons, List.head?_cons, List.tail_cons,
      ← hd2def]
    simp
  · rw [if_neg hdot]
    unfold substring
    rw [hin1, hp1, ← hxsdef,
      show l.position + k1 - l.position = k1 from by omega, hxs_take]
    refine congrArg String.mk ?_
    simp only [maximalNumberLexeme, ← hk1def, hdropk1]
    rcases Nat.lt_or_ge (l.position + k1) l.input.length with hlt | hge
    · have hcell : l.input[l.position + k1] = (skipDigits l).ch := by
        have hch := hwf1.2
        rw [hin1, hp1, chAt, if_neg (by omega), List.getD_eq_getElem _ _ hlt] at hch
        exact hch.symm
      rw [List.drop_eq_getElem_cons hlt, List.head?_cons, if_neg]
      intro he
      rw [Option.some.inj he] at hcell
      exact hdot hcell.symm
    · rw [List.drop_eq_nil_of_le hge]
      simp

/-- A digit is not any operator/delimiter character, not the sentinel, and
not a letter. -/
theorem isDigit_excludes {c : Char} (h : isDigit c = true) :
    singleCharKind c = none ∧ c ≠ '=' ∧ c ≠ '!' ∧ c ≠ Char.ofNat 0 ∧ isLetter c = false := by
  have hb : 48 ≤ c.toNat ∧ c.toNat ≤ 57 := by
    simpa [isDigit] using h
  refine ⟨?_, ?_, ?_, ?_, ?_⟩
  · unfold singleCharKind
    rw [if_neg (fun he => by rw [he] at hb; exact absurd hb (by decide)),
      if_neg (fun he => by rw [he] at hb; exact absurd hb (by decide)),
      if_neg (fun he => by rw [he] at hb; exact absurd hb (by decide)),
      if_neg (fun he => by rw [he] at hb; exact absurd hb (by decide)),
      if_neg (fun he => by rw [he] at hb; exact absurd hb (by decide)),
      if_neg (fun he => by rw [he] at hb; exact absurd hb (by decide)),
      if_neg (fun he => by rw [he] at hb; exact absurd hb (by decide)),
      if_neg (fun he => by rw [he] at hb; exact absurd hb (by decide)),
      if_neg (fun he => by rw [he] at hb; exact absurd hb (by decide)),
      if_neg (fun he => by rw [he] at hb; exact absurd hb (by decide)),
      if_neg (fun he => by rw [he] at hb; exact absurd hb (by decide)),
      if_neg (fun he => by rw [he] at hb; exact absurd hb (by decide))]
  · exact fun he => by rw [he] at hb; exact absurd hb (by decide)
  · exact fun he => by rw [he] at hb; exact absurd hb (by decide)
  · exact fun he => by rw [he] at hb; exact absurd hb (by decide)
  · refine eq_false_of_ne_true (fun hl => ?_)
    simp only [isLetter, Bool.or_eq_true, Bool.and_eq_true, decide_eq_true_eq] at hl
    rcases hl with (⟨ha, hb'⟩ | ⟨ha, hb'⟩) | hc
    · omega
    · omega
    · rw [hc] at hb; exact absurd hb (by decide)

/-- On a digit, `NextToken` runs `readNumber` and tags the slice `INT`. -/
theorem nextToken_digit (l : Lexer) (hd : isDigit (skipWhitespace l).ch = true) :
    NextToken l = (⟨TokenType.INT, (readNumber (skipWhitespace l)).1⟩,
      (readNumber (skipWhitespace l)).2) := by
  obtain ⟨hck, h1, h2, h3, hl⟩ := isDigit_excludes hd
  show tokenDispatch (skipWhitespace l) = _
  rw [tokenDispatch_default _ hck h1 h2 h3, if_neg (by rw [hl]; exact Bool.false_ne_true),
    if_pos hd]

/-- On a mapped single character, `NextToken` emits the fixed one-character
token and advances exactly once past it. -/
theorem nextToken_single (l : Lexer) {k : TokenType}
    (hk : singleCharKind (skipWhitespace l).ch = some k) :
    NextToken l = (newToken k (skipWhitespace l).ch, readChar (skipWhitespace l)) :=
  tokenDispatch_single (skipWhitespace l) hk

/-- On an unrecognized character, `NextToken` emits `ILLEGAL` with that one
character as literal. -/
theorem nextToken_illegal (l : Lexer)
    (hck : singleCharKind (skipWhitespace l).ch = none)
    (h1 : (skipWhitespace l).ch ≠ '=') (h2 : (skipWhitespace l).ch ≠ '!')
    (h3 : (skipWhitespace l).ch ≠ Char.ofNat 0)
    (hl : isLetter (skipWhitespace l).ch = false)
    (hd : isDigit (skipWhitespace l).ch = false) :
    NextToken l = (newToken TokenType.ILLEGAL (skipWhitespace l).ch,
      readChar (skipWhitespace l)) := by
  show tokenDispatch (skipWhitespace l) = _
  rw [tokenDispatch_default _ hck h1 h2 h3, if_neg (by rw [hl]; exact Bool.false_ne_true),
    if_neg (by rw [hd]; exact Bool.false_ne_true)]

theorem skipWhitespace_wf (l : Lexer) (hwf : Wf l) : Wf (skipWhitespace l) := by
  rw [skipWhitespace_eq_loopW]
  exact (loopW_state isWhitespace (by decide) l hwf).1

/-! ### AST model (`ast.go`)

The Go interface pair `Statement`/`Expression` with marker methods becomes a
pair of sum types, as the spec's design notes direct (§9: closed variant
sets as tagged unions).  Go nil-able child pointers (`Value Expression`,
`ReturnValue Expression`, `Expression Expression`) become `Option`; the
`Name *Identifier` field of `LetStatement` is dereferenced unconditionally
by `String()`, so a rendering call is only meaningful with a present name,
and the field is embedded as a plain `Identifier`.  Go's `String()` methods
are named `render` here (`String` collides with the Lean type). -/

/-- `Identifier` from `ast.go`. -/
structure Identifier where
  token : Token
  value : String
deriving DecidableEq

/-- The expression variants of `ast.go`: `Identifier` and `IntegerLiteral`
(whose `Value` is an `int64`, embedded as `Int`). -/
inductive Expression where
  | ident (i : Identifier)
  | integerLiteral (token : Token) (value : Int)
deriving DecidableEq

/-- The statement variants of `ast.go`. -/
inductive Statement where
  | letStatement (token : Token) (name : Identifier) (value : Option Expression)
  | returnStatement (token : Token) (returnValue : Option Expression)
  | expressionStatement (token : Token) (expression : Option Expression)
deriving DecidableEq

/-- `Program` from `ast.go`: an ordered sequence of statements. -/
structure Program where
  statements : List Statement
deriving DecidableEq

/-- `Identifier.TokenLiteral`. -/
def Identifier.tokenLiteral (i : Identifier) : String := i.token.literal

/-- `Identifier.String`: returns `i.Value`. -/
def Identifier.render (i : Identifier) : String := i.value

/-- `TokenLiteral` of the expression variants: both return the node token's
literal (`Identifier` via its token, `IntegerLiteral` via its token). -/
def Expression.tokenLiteral : Expression → String
  | .ident i => i.token.literal
  | .integerLiteral token _ => token.literal

/-- `String()` of the expression variants: an `Identifier` renders as its
`Value`, an `IntegerLiteral` as its token literal. -/
def Expression.render : Expression → String
  | .ident i => i.render
  | .integerLiteral token _ => token.literal

/-- `TokenLiteral` of each statement variant: the stored token's literal. -/
def Statement.tokenLiteral : Statement → String
  | .letStatement token _ _ => token.literal
  | .returnStatement token _ => token.literal
  | .expressionStatement token _ => token.literal

/-- `String()` of each statement variant, with the same buffer writes in the
same order as `ast.go`; a `nil` child expression is skipped, never
dereferenced. -/
def Statement.render : Statement → String
  | .letStatement token name value =>
    token.literal ++ " " ++ name.render ++ " = "
      ++ (match value with | some v => v.render | none => "") ++ ";"
  | .returnStatement token returnValue =>
    token.literal ++ " "
      ++ (match returnValue with | some v => v.render | none => "") ++ ";"
  | .expressionStatement _ expression =>
    match expression with | some v => v.render | none => ""

/-- `Program.TokenLiteral`: the first statement's token literal when the
sequence is non-empty, the empty string otherwise. -/
def Program.tokenLiteral (p : Program) : String :=
  match p.statements with
  | s :: _ => s.tokenLiteral
  | [] => ""

/-- `Program.String`: write each statement's rendering into the buffer in
order. -/
def Program.render (p : Program) : String :=
  p.statements.foldl (fun out s => out ++ s.render) ""

/-! ### Parser

The repository snapshot holds only `parser_test.go`; the parser itself is
missing, so every definition in this section is modelled from the
specification (§4.3, §6, §7).  Loops (`ParseProgram`'s statement loop and
the skip-to-semicolon recovery walk) carry an explicit fuel argument; the
concrete theorems exhibit final states whose current token is `EndOfInput`,
witnessing that the fuel was not exhausted. -/

/-- Modelled from the spec: parser state — lexer, current token, one-token
lookahead, and the ordered diagnostic list (§4.3). -/
structure Parser where
  lexer : Lexer
  curToken : Token
  peekToken : Token
  errors : List String
deriving DecidableEq

/-- Modelled from the spec: `advance()` — current becomes peek, peek is the
lexer's next token (§4.3). -/
def Parser.advanceTok (p : Parser) : Parser :=
  let r := NextToken p.lexer
  { lexer := r.2, curToken := p.peekToken, peekToken := r.1, errors := p.errors }

/-- Modelled from the spec: `NewParser(lexer)` pulls two tokens to populate
current + peek, with an empty diagnostic list (§4.3, §6). -/
def NewParser (lx : Lexer) : Parser :=
  let r1 := NextToken lx
  let r2 := NextToken r1.2
  { lexer := r2.2, curToken := r1.1, peekToken := r2.1, errors := [] }

/-- Modelled from the spec: the decimal value of an integer literal (the
`strconv` conversion performed by the missing parser when it materializes an
`IntegerLiteral`). -/
def decValue (s : String) : Int :=
  Int.ofNat (s.data.foldl (fun a c => a * 10 + (c.toNat - 48)) 0)

/-- Modelled from the spec: `expectPeek(kind)` — on a match advance and
succeed, otherwise append the diagnostic and fail without advancing (§4.3). -/
def expectPeek (k : TokenType) (p : Parser) : Bool × Parser :=
  if p.peekToken.type = k then (true, p.advanceTok)
  else (false, { p with errors := p.errors ++
    ["expected next token to be " ++ typeString k ++ ", got "
      ++ typeString p.peekToken.type ++ " instead"] })

/-- Modelled from the spec: expression parsing at the lowest precedence.
The prefix table holds exactly `Identifier → parse as Identifier` and
`Integer → parse as IntegerLiteral`; the infix table is empty in the minimal
evidence set, so the precedence-climbing loop never fires and parsing is the
prefix step alone.  A token kind with no prefix operation records a
diagnostic naming it and yields a nil expression (§4.3). -/
def parseExpression (p : Parser) : Option Expression × Parser :=
  match p.curToken.type with
  | .IDENT => (some (.ident ⟨p.curToken, p.curToken.literal⟩), p)
  | .INT => (some (.integerLiteral p.curToken (decValue p.curToken.literal)), p)
  | t => (none, { p with errors := p.errors ++
      ["no prefix parse function for " ++ typeString t ++ " found"] })

/-- Modelled from the spec: recovery walk — advance until the current token
is a `Semicolon`, stopping at end-of-input so the parser cannot loop
forever (§4.3, §4.7's termination guarantee). -/
def skipToSemicolon : Nat → Parser → Parser
  | 0, p => p
  | fuel+1, p =>
    if p.curToken.type = TokenType.SEMICOLON ∨ p.curToken.type = TokenType.EOF then p
    else skipToSemicolon fuel p.advanceTok

/-- Modelled from the spec: `parseExpressionStatement` — parse one
expression at lowest precedence, wrap it, and optionally consume a trailing
`Semicolon` (§4.3). -/
def parseExpressionStatement (p : Parser) : Option Statement × Parser :=
  let tok := p.curToken
  let r := parseExpression p
  let p2 := if r.2.peekToken.type = TokenType.SEMICOLON then r.2.advanceTok else r.2
  (some (.expressionStatement tok r.1), p2)

/-- Modelled from the spec: `parseLetStatement` — expect an `Identifier`
after `let` (else record the error and drop the statement), expect `Assign`,
parse the bound expression, then settle on the `Semicolon` (§4.3). -/
def parseLetStatement (fuel : Nat) (p : Parser) : Option Statement × Parser :=
  let tok := p.curToken
  match expectPeek TokenType.IDENT p with
  | (false, p1) => (none, p1)
  | (true, p1) =>
    let name : Identifier := ⟨p1.curToken, p1.curToken.literal⟩
    match expectPeek TokenType.ASSIGN p1 with
    | (false, p2) => (none, p2)
    | (true, p2) =>
      let p3 := p2.advanceTok
      let r := parseExpression p3
      (some (.letStatement tok name r.1), skipToSemicolon fuel r.2)

/-- Modelled from the spec: `parseReturnStatement` — consume `return`, parse
the return value, then settle on the `Semicolon` (§4.3). -/
def parseReturnStatement (fuel : Nat) (p : Parser) : Option Statement × Parser :=
  let tok := p.curToken
  let p1 := p.advanceTok
  let r := parseExpression p1
  (some (.returnStatement tok r.1), skipToSemicolon fuel r.2)

/-- Modelled from the spec: statement dispatch on the current token's kind —
`Let`/`Return` to their parsers, anything else to
`parseExpressionStatement` (§4.3). -/
def parseStatement (fuel : Nat) (p : Parser) : Option Statement × Parser :=
  match p.curToken.type with
  | .LET => parseLetStatement fuel p
  | .RETURN => parseReturnStatement fuel p
  | _ => parseExpressionStatement p

/-- Modelled from the spec: the `ParseProgram` loop — while the current
token is not `EndOfInput`, parse one statement, append it when non-nil, and
advance (§4.3). -/
def parseProgramLoop : Nat → Parser → List Statement → List Statement × Parser
  | 0, p, acc => (acc, p)
  | fuel+1, p, acc =>
    if p.curToken.type = TokenType.EOF then (acc, p)
    else
      let r := parseStatement fuel p
      let acc2 := match r.1 with | some s => acc ++ [s] | none => acc
      parseProgramLoop fuel r.2.advanceTok acc2

/-- Modelled from the spec: `ParseProgram()` — run the loop from an empty
statement sequence and return the (always non-nil) `Program` (§4.3, §6). -/
def ParseProgram (fuel : Nat) (p : Parser) : Program × Parser :=
  let r := parseProgramLoop fuel p []
  (⟨r.1⟩, r.2)

/-- Whether a statement is a `ReturnStatement` variant. -/
def isReturnStatement : Statement → Bool
  | .returnStatement _ _ => true
  | _ => false

/-! ### Claim theorems -/

/-- C1, counterexample: the claim is stated for every input string, but the
lexer reuses the byte 0 both as the end sentinel and as an input byte, so on
the input `"\x00a"` the very first token is `EndOfInput` while the second is
not — the end state is not idempotent as stated. -/
theorem c1_counterexample :
    (nthToken (New [Char.ofNat 0, 'a']) 0).type = TokenType.EOF ∧
    (nthToken (New [Char.ofNat 0, 'a']) 1).type ≠ TokenType.EOF := by decide

/-- C1, amended: for every input containing no NUL byte, every call past the
input's length returns the `EndOfInput` token with empty literal (so some
call eventually does), and once any call returns `EndOfInput`, every later
call does too. -/
theorem c1_eof_idempotent_no_nul (input : List Char)
    (hnz : ∀ c ∈ input, c ≠ Char.ofNat 0) :
    (∀ n, input.length ≤ n → nthToken (New input) n = ⟨TokenType.EOF, ""⟩) ∧
    (∀ n m, n ≤ m → (nthToken (New input) n).type = TokenType.EOF →
      (nthToken (New input) m).type = TokenType.EOF) := by
  have hwf0 : Wf (New input) := wf_New input
  have hpos0 : (New input).position = 0 := rfl
  have hin0 : (New input).input = input := rfl
  constructor
  · intro n hn
    obtain ⟨hwfn, hposn, hinn⟩ := stateAfter_facts (New input) hwf0 n
    rw [hpos0] at hposn
    show (NextToken (stateAfter (New input) n)).1 = _
    rw [nextToken_at_end _ hwfn (by rw [hinn, hin0]; omega)]
  · intro n m hnm htype
    obtain ⟨hwfn, hposn, hinn⟩ := stateAfter_facts (New input) hwf0 n
    have htype2 : (NextToken (stateAfter (New input) n)).1.type = TokenType.EOF := htype
    have hend := eof_only_at_end _ hwfn
      (by rw [hinn, hin0]; exact hnz) htype2
    rw [hinn, hin0] at hend
    rcases Nat.eq_or_lt_of_le hnm with heq | hlt
    · rw [← heq]; exact htype
    · obtain ⟨k, hk⟩ : ∃ k, m = (n + 1) + k := ⟨m - (n + 1), by omega⟩
      have hpeel : stateAfter (New input) (n + 1)
          = (NextToken (stateAfter (New input) n)).2 := by
        rw [stateAfter_add (New input) n 1]
        rfl
      have hwfs2 : Wf (NextToken (stateAfter (New input) n)).2 :=
        (nextToken_state _ hwfn).1
      have hin2 : (NextToken (stateAfter (New input) n)).2.input = input := by
        rw [(nextToken_state _ hwfn).2.2, hinn, hin0]
      obtain ⟨hwfk, hposk, hink⟩ := stateAfter_facts _ hwfs2 k
      show (NextToken (stateAfter (New input) m)).1.type = _
      rw [hk, stateAfter_add (New input) (n + 1) k, hpeel,
        nextToken_at_end _ hwfk (by rw [hink, hin2]; omega)]

/-- C1, witness instance on the input `"ab"`. -/
theorem c1_witness :
    (∀ c ∈ ("ab".data), c ≠ Char.ofNat 0) ∧
    ((∀ n, ("ab".data).length ≤ n → nthToken (New ("ab".data)) n = ⟨TokenType.EOF, ""⟩) ∧
     (∀ n m, n ≤ m → (nthToken (New ("ab".data)) n).type = TokenType.EOF →
       (nthToken (New ("ab".data)) m).type = TokenType.EOF)) :=
  ⟨by decide, c1_eof_idempotent_no_nul ("ab".data) (by decide)⟩

/-- C3, counterexample: on the input `"ab"`, the state after construction is
not the state obtained by two advances from the zeroed initial state — `New`
calls `readChar` exactly once (its own comment notwithstanding), so the
constructed state has `position = 0`, not `1`. -/
theorem c3_counterexample :
    New ("ab".data) ≠ readChar (readChar
      { input := "ab".data, position := 0, readPosition := 0, ch := Char.ofNat 0 }) := by
  decide

/-- C3, amended: construction performs exactly one initial character-advance:
`New input` is one `readChar` from the zeroed initial state, which leaves
`position = 0`, `readPosition = 1` and `ch` the character at index 0 (so
`ch`/`readPosition` are valid before the first token request), and this
differs from the twice-advanced state for every input. -/
theorem c3_one_advance (input : List Char) :
    New input = readChar ⟨input, 0, 0, Char.ofNat 0⟩ ∧
    (New input).position = 0 ∧ (New input).readPosition = 1 ∧
    (New input).ch = chAt input 0 ∧
    New input ≠ readChar (readChar ⟨input, 0, 0, Char.ofNat 0⟩) := by
  refine ⟨rfl, rfl, rfl, rfl, ?_⟩
  intro he
  have h1 : (New input).position = 0 := rfl
  rw [he] at h1
  exact one_ne_zero (show (1 : Nat) = 0 from h1)

/-- C4: tokenizing `"=="` yields the single two-character `EQ` token followed
by end-of-input, and `"!="` the single `NOT_EQ` token followed by
end-of-input — never two single-character tokens. -/
theorem c4_two_char_operators :
    nthToken (New ("==".data)) 0 = ⟨TokenType.EQ, "=="⟩ ∧
    (nthToken (New ("==".data)) 1).type = TokenType.EOF ∧
    nthToken (New ("!=".data)) 0 = ⟨TokenType.NOT_EQ, "!="⟩ ∧
    (nthToken (New ("!=".data)) 1).type = TokenType.EOF := by decide

/-- C5: when the first non-whitespace character is one of the twelve
single-character operators/delimiters, `NextToken` returns the fixed kind
with exactly that one character as literal, and the scan position advances
past exactly that one character. -/
theorem c5_single_char_tokens (l : Lexer) (k : TokenType) (hwf : Wf l)
    (hk : singleCharKind (skipWhitespace l).ch = some k) :
    (NextToken l).1 = ⟨k, String.mk [(skipWhitespace l).ch]⟩ ∧
    (NextToken l).2.position = (skipWhitespace l).position + 1 := by
  rw [nextToken_single l hk]
  exact ⟨rfl, readChar_position_succ (skipWhitespace_wf l hwf)⟩

/-- C5, witness instance on the input `" +x"`. -/
theorem c5_witness :
    Wf (New (" +x".data)) ∧
    singleCharKind ((skipWhitespace (New (" +x".data))).ch) = some TokenType.PLUS ∧
    ((NextToken (New (" +x".data))).1
        = ⟨TokenType.PLUS, String.mk [(skipWhitespace (New (" +x".data))).ch]⟩ ∧
     (NextToken (New (" +x".data))).2.position
        = (skipWhitespace (New (" +x".data))).position + 1) :=
  ⟨⟨rfl, rfl⟩, by decide, c5_single_char_tokens _ TokenType.PLUS ⟨rfl, rfl⟩ (by decide)⟩

/-- C6: when the first non-whitespace character is an ASCII digit, the token
is an `INT` whose literal is the maximal digit run starting there, extended
by a dot and the following maximal digit run when a dot immediately follows;
the literal is the plain source slice (a `Token` carries only text — the
lexer performs no numeric conversion). -/
theorem c6_number_lexeme (l : Lexer) (hwf : Wf l)
    (hd : isDigit (skipWhitespace l).ch = true) :
    (NextToken l).1.type = TokenType.INT ∧
    (NextToken l).1.literal = String.mk (maximalNumberLexeme
      ((skipWhitespace l).input.drop (skipWhitespace l).position)) := by
  rw [nextToken_digit l hd]
  exact ⟨rfl, readNumber_literal (skipWhitespace l) (skipWhitespace_wf l hwf)⟩

/-- C6, witness instance on the input `" 12.5x"` (literal `"12.5"`). -/
theorem c6_witness :
    Wf (New (" 12.5x".data)) ∧
    isDigit ((skipWhitespace (New (" 12.5x".data))).ch) = true ∧
    ((NextToken (New (" 12.5x".data))).1.type = TokenType.INT ∧
     (NextToken (New (" 12.5x".data))).1.literal = String.mk (maximalNumberLexeme
       ((skipWhitespace (New (" 12.5x".data))).input.drop
         (skipWhitespace (New (" 12.5x".data))).position))) :=
  ⟨⟨rfl, rfl⟩, by decide, c6_number_lexeme _ ⟨rfl, rfl⟩ (by decide)⟩

/-- C7: `NextToken` is a total function by construction (it is a Lean `def`
returning a token for every state); when the current non-whitespace
character is not a recognized operator/delimiter, not `=`, not `!`, not a
letter or underscore, not a digit and not the sentinel 0, the token is
`ILLEGAL` carrying that single byte as its literal — no error is ever
signalled. -/
theorem c7_illegal_fallback (l : Lexer)
    (hck : singleCharKind (skipWhitespace l).ch = none)
    (h1 : (skipWhitespace l).ch ≠ '=') (h2 : (skipWhitespace l).ch ≠ '!')
    (h3 : (skipWhitespace l).ch ≠ Char.ofNat 0)
    (hl : isLetter (skipWhitespace l).ch = false)
    (hd : isDigit (skipWhitespace l).ch = false) :
    (NextToken l).1 = ⟨TokenType.ILLEGAL, String.mk [(skipWhitespace l).ch]⟩ := by
  rw [nextToken_illegal l hck h1 h2 h3 hl hd]
  rfl

/-- C7, witness instance on the input `"@"`. -/
theorem c7_witness :
    singleCharKind ((skipWhitespace (New ("@".data))).ch) = none ∧
    (skipWhitespace (New ("@".data))).ch ≠ '=' ∧
    (skipWhitespace (New ("@".data))).ch ≠ '!' ∧
    (skipWhitespace (New ("@".data))).ch ≠ Char.ofNat 0 ∧
    isLetter ((skipWhitespace (New ("@".data))).ch) = false ∧
    isDigit ((skipWhitespace (New ("@".data))).ch) = false ∧
    (NextToken (New ("@".data))).1
      = ⟨TokenType.ILLEGAL, String.mk [(skipWhitespace (New ("@".data))).ch]⟩ :=
  ⟨by decide, by decide, by decide, by decide, by decide, by decide,
   c7_illegal_fallback _ (by decide) (by decide) (by decide) (by decide)
     (by decide) (by decide)⟩

/-- C8, counterexample: a `Program` whose single `LetStatement` carries a
token with empty literal has `TokenLiteral() = ""` while its statement
sequence is non-empty, so the claimed equivalence fails right-to-left. -/
theorem c8_counterexample :
    Program.tokenLiteral ⟨[Statement.letStatement ⟨TokenType.LET, ""⟩
      ⟨⟨TokenType.IDENT, "x"⟩, "x"⟩ none]⟩ = "" ∧
    ([Statement.letStatement ⟨TokenType.LET, ""⟩ ⟨⟨TokenType.IDENT, "x"⟩, "x"⟩ none]
      ≠ ([] : List Statement)) := by decide

/-- C8, amended: `Program.TokenLiteral()` is the empty string iff the
statement sequence is empty or its first statement's own token literal is
empty (the code returns the first statement's literal verbatim, which may
itself be empty). -/
theorem c8_token_literal_iff (p : Program) :
    p.tokenLiteral = "" ↔
      (p.statements = [] ∨
        ∃ s rest, p.statements = s :: rest ∧ s.tokenLiteral = "") := by
  rcases hps : p.statements with - | ⟨s, rest⟩
  · simp only [Program.tokenLiteral, hps]
    simp
  · simp only [Program.tokenLiteral, hps]
    constructor
    · intro h
      exact Or.inr ⟨s, rest, rfl, h⟩
    · rintro (h | ⟨s2, rest2, heq, h⟩)
      · exact absurd h (List.cons_ne_nil s rest)
      · injection heq with heq1 heq2
        rw [heq1]
        exact h

/-- C9: a `LetStatement` with present name and value renders as the token
literal, a space, the name's rendering, an equals sign with spaces, the
value's rendering and a semicolon; `Program.String()` is the separator-free
concatenation of its statements' renderings in order; and the one-statement
program built from `"let myVar = anotherVar;"` (the `ast_test.go` value)
renders back to exactly that text. -/
theorem c9_render_round_trip :
    (∀ (tok : Token) (name : Identifier) (e : Expression),
      (Statement.letStatement tok name (some e)).render
        = tok.literal ++ " " ++ name.render ++ " = " ++ e.render ++ ";") ∧
    (∀ p : Program, p.render = String.join (p.statements.map Statement.render)) ∧
    Program.render ⟨[Statement.letStatement ⟨TokenType.LET, "let"⟩
        ⟨⟨TokenType.IDENT, "myVar"⟩, "myVar"⟩
        (some (Expression.ident ⟨⟨TokenType.IDENT, "anotherVar"⟩, "anotherVar"⟩))]⟩
      = "let myVar = anotherVar;" := by
  refine ⟨fun tok name e => rfl, fun p => ?_, by decide⟩
  simp only [Program.render, String.join, List.foldl_map]

/-- C10: rendering is total on nodes with missing child expressions — an
`ExpressionStatement` with nil expression renders as the empty string, a
`LetStatement` with nil value as `"<literal> <name> = ;"`, and a
`ReturnStatement` with nil return value as `"<literal> ;"`; the nil child is
never dereferenced (the `Option` is matched, not forced). -/
theorem c10_nil_children_total :
    (∀ tok : Token, (Statement.expressionStatement tok none).render = "") ∧
    (∀ (tok : Token) (name : Identifier),
      (Statement.letStatement tok name none).render
        = tok.literal ++ " " ++ name.render ++ " = ;") ∧
    (∀ tok : Token, (Statement.returnStatement tok none).render = tok.literal ++ " ;") := by
  refine ⟨fun tok => rfl, fun tok name => ?_, fun tok => ?_⟩
  · show tok.literal ++ " " ++ name.render ++ " = " ++ "" ++ ";" = _
    rw [String.append_empty, String.append_assoc]
    rfl
  · show tok.literal ++ " " ++ "" ++ ";" = _
    rw [String.append_empty, String.append_assoc]
    rfl

/-- C2 (code bug): parsing the three-line source
`"return 5;\nreturn 10;\nreturn 993322;"` does NOT yield three
`ReturnStatement` nodes: the keyword table of `token.go` lacks `"return"`
(and no `RETURN` kind exists there), so each `return` lexes as an
`Identifier` and the parse produces six `ExpressionStatement`s, none of them
a `ReturnStatement`, with no diagnostics — contradicting
`TestReturnStatements` in `parser_test.go`.  The final parser state's
current token is `EndOfInput`, witnessing that the fuel of 50 was not
exhausted; `LookupIdent "return" = IDENT` exhibits the root cause. -/
theorem c2_return_statements_bug :
    (ParseProgram 50 (NewParser (New
      ("return 5;\nreturn 10;\nreturn 993322;".data)))).1.statements.length = 6 ∧
    ((ParseProgram 50 (NewParser (New
      ("return 5;\nreturn 10;\nreturn 993322;".data)))).1.statements.all
        (fun s => !(isReturnStatement s)) = true) ∧
    (ParseProgram 50 (NewParser (New
      ("return 5;\nreturn 10;\nreturn 993322;".data)))).2.errors = [] ∧
    (ParseProgram 50 (NewParser (New
      ("return 5;\nreturn 10;\nreturn 993322;".data)))).2.curToken.type = TokenType.EOF ∧
    LookupIdent "return" = TokenType.IDENT := by decide

end Monkey
